import Mathlib

/-!
# librsync-rs: the i686 build configuration and the delta engine it configures

Part I embeds `librsync-sys/config/i686-unknown-linux-gnu/config.h` as the list of
preprocessor directives it consists of, together with a small line-by-line
preprocessor (conditional stack, object-like definitions, redefinition
diagnostics).  Part II holds the delta engine of the design document.
-/

namespace ConfigH

/-! ## Part I: the preprocessor and `config.h` -/

/-- An environment of preprocessor definitions: every identifier is mapped to its
replacement text when it is defined, and to `none` when it is not. -/
abbrev Env := String → Option String

/-- The directive lines that occur in `config.h`.  A C comment is kept as a line of
its own so that the commented-out `#undef` lines of the header stay visible. -/
inductive Directive where
  | comment (text : String)
  | define (name value : String)
  | ifDefined (name : String)
  | ifndef (name : String)
  | elseD
  | endif
deriving DecidableEq, Repr

/-- One open conditional group: whether the branch being read is the taken one and
whether its `#else` has been passed. -/
structure Frame where
  active : Bool
  seenElse : Bool
deriving DecidableEq, Repr

/-- Diagnostics the preprocessor can raise on these directives. -/
inductive Diag where
  | redefined (name old new : String)
  | strayElse
  | strayEndif
deriving DecidableEq, Repr

/-- The preprocessor state between two lines. -/
structure State where
  env : Env
  stack : List Frame
  diags : List Diag

/-- A line is processed only when every enclosing conditional branch is taken. -/
def live (s : State) : Bool := s.stack.all (fun f => f.active)

/-- The environment after `#define name value`. -/
def Env.set (e : Env) (name value : String) : Env :=
  fun m => if m = name then some value else e m

/-- The diagnostic of `#define name value`: a definition that changes the replacement
text of a defined identifier is reported, an identical one is not. -/
def redefDiag (e : Env) (name value : String) : List Diag :=
  match e name with
  | some old => if old = value then [] else [Diag.redefined name old value]
  | none => []

/-- Process one line. -/
def step (s : State) : Directive → State
  | .comment _ => s
  | .define n v =>
      if live s then
        { env := s.env.set n v, stack := s.stack, diags := s.diags ++ redefDiag s.env n v }
      else s
  | .ifDefined n =>
      { s with stack := { active := (s.env n).isSome, seenElse := false } :: s.stack }
  | .ifndef n =>
      { s with stack := { active := (s.env n).isNone, seenElse := false } :: s.stack }
  | .elseD =>
      match s.stack with
      | [] => { s with diags := s.diags ++ [Diag.strayElse] }
      | f :: fs =>
          if f.seenElse then { s with diags := s.diags ++ [Diag.strayElse] }
          else { s with stack := { active := !f.active, seenElse := true } :: fs }
  | .endif =>
      match s.stack with
      | [] => { s with diags := s.diags ++ [Diag.strayEndif] }
      | _ :: fs => { s with stack := fs }

/-- Process a sequence of lines from a given state. -/
def run (prog : List Directive) (s : State) : State := prog.foldl step s

/-- The directives of `config.h`, in file order (line numbers of the header in the
trailing comments).  Purely descriptive comments are left out; every commented-out
`#undef` is kept as a `comment`. -/
def configH : List Directive :=
  [ Directive.comment "#undef AC_APPLE_UNIVERSAL_BUILD",          -- 5
    Directive.comment "#undef CRAY_STACKSEG_END",                 -- 10
    Directive.comment "#undef C_ALLOCA",                          -- 13
    Directive.comment "#undef DO_RS_TRACE",                       -- 16
    Directive.comment "#undef HAVE_ALLOCA",                       -- 19
    Directive.define "HAVE_ALLOCA_H" "1",                         -- 22
    Directive.comment "#undef HAVE_BZLIB_H",                      -- 25
    Directive.define "HAVE_DLFCN_H" "1",                          -- 28
    Directive.define "HAVE_FCNTL_H" "1",                          -- 31
    Directive.define "HAVE_FSEEKO" "1",                           -- 34
    Directive.define "HAVE_INTTYPES_H" "1",                       -- 37
    Directive.comment "#undef HAVE_LIBBZ2",                       -- 40
    Directive.comment "#undef HAVE_LIBPOPT",                      -- 43
    Directive.comment "#undef HAVE_LIBZ",                         -- 46
    Directive.define "HAVE_MALLOC_H" "1",                         -- 49
    Directive.define "HAVE_MCHECK_H" "1",                         -- 52
    Directive.define "HAVE_MEMMOVE" "1",                          -- 55
    Directive.define "HAVE_MEMORY_H" "1",                         -- 58
    Directive.define "HAVE_MEMSET" "1",                           -- 61
    Directive.comment "#undef HAVE_PROGRAM_INVOCATION_NAME",      -- 64
    Directive.comment "#undef HAVE_SNPRINTF",                     -- 67
    Directive.define "HAVE_STDINT_H" "1",                         -- 70
    Directive.define "HAVE_STDLIB_H" "1",                         -- 73
    Directive.define "HAVE_STRCHR" "1",                           -- 76
    Directive.define "HAVE_STRERROR" "1",                         -- 79
    Directive.define "HAVE_STRINGS_H" "1",                        -- 82
    Directive.define "HAVE_STRING_H" "1",                         -- 85
    Directive.define "HAVE_SYS_FILE_H" "1",                       -- 88
    Directive.define "HAVE_SYS_STAT_H" "1",                       -- 91
    Directive.define "HAVE_SYS_TYPES_H" "1",                      -- 94
    Directive.define "HAVE_UNISTD_H" "1",                         -- 97
    Directive.comment "#undef HAVE_VARARG_MACROS",                -- 100
    Directive.comment "#undef HAVE_VSNPRINTF",                    -- 103
    Directive.comment "#undef HAVE_ZLIB_H 1",                     -- 106
    Directive.comment "#undef HAVE__SNPRINTF",                    -- 109
    Directive.comment "#undef HAVE__VSNPRINTF",                   -- 112
    Directive.define "PACKAGE" "\"librsync\"",                    -- 115
    Directive.define "SIZEOF_LONG" "4",                           -- 118
    Directive.define "SIZEOF_LONG_LONG" "8",                      -- 121
    Directive.define "SIZEOF_SIZE_T" "4",                         -- 124
    Directive.define "SIZEOF_UNSIGNED_INT" "4",                   -- 127
    Directive.define "SIZEOF_UNSIGNED_LONG" "4",                  -- 130
    Directive.define "SIZEOF_UNSIGNED_SHORT" "2",                 -- 133
    Directive.comment "#undef STACK_DIRECTION",                   -- 141
    Directive.define "STDC_HEADERS" "1",                          -- 144
    Directive.ifndef "_ALL_SOURCE",                               -- 147
    Directive.define "_ALL_SOURCE" "1",                           -- 148
    Directive.endif,                                              -- 149
    Directive.ifndef "_GNU_SOURCE",                               -- 151
    Directive.define "_GNU_SOURCE" "1",                           -- 152
    Directive.endif,                                              -- 153
    Directive.ifndef "_POSIX_PTHREAD_SEMANTICS",                  -- 155
    Directive.define "_POSIX_PTHREAD_SEMANTICS" "1",              -- 156
    Directive.endif,                                              -- 157
    Directive.ifndef "_TANDEM_SOURCE",                            -- 159
    Directive.define "_TANDEM_SOURCE" "1",                        -- 160
    Directive.endif,                                              -- 161
    Directive.ifndef "__EXTENSIONS__",                            -- 163
    Directive.define "__EXTENSIONS__" "1",                        -- 164
    Directive.endif,                                              -- 165
    Directive.define "VERSION" "\"2.0.1\"",                       -- 169
    Directive.ifDefined "AC_APPLE_UNIVERSAL_BUILD",               -- 173
    Directive.ifDefined "__BIG_ENDIAN__",                         -- 174
    Directive.define "WORDS_BIGENDIAN" "1",                       -- 175
    Directive.endif,                                              -- 176
    Directive.elseD,                                              -- 177
    Directive.ifndef "WORDS_BIGENDIAN",                           -- 178
    Directive.comment "#  undef WORDS_BIGENDIAN",                 -- 179
    Directive.endif,                                              -- 180
    Directive.endif,                                              -- 181
    Directive.ifndef "_DARWIN_USE_64_BIT_INODE",                  -- 184
    Directive.define "_DARWIN_USE_64_BIT_INODE" "1",              -- 185
    Directive.endif,                                              -- 186
    Directive.comment "#undef _FILE_OFFSET_BITS",                 -- 189
    Directive.comment "#undef _LARGEFILE_SOURCE",                 -- 192
    Directive.comment "#undef _LARGE_FILES",                      -- 195
    Directive.comment "#undef _MINIX",                            -- 198
    Directive.comment "#undef _POSIX_1_SOURCE",                   -- 202
    Directive.comment "#undef _POSIX_SOURCE",                     -- 205
    Directive.comment "#undef const",                             -- 208
    Directive.comment "#undef off_t",                             -- 211
    Directive.comment "#undef size_t" ]                           -- 214

/-- Processing `config.h` once, starting outside any conditional and with no
diagnostics pending. -/
def process (e : Env) : State := run configH { env := e, stack := [], diags := [] }

/-- The environment in which nothing is predefined. -/
def emptyEnv : Env := fun _ => none

/-- The identifier a line defines, if it is a `#define`. -/
def Directive.definedName : Directive → Option String
  | .define n _ => some n
  | _ => none

/-- The identifiers that some `#define` of `config.h` names. -/
def definedNames : List String := configH.filterMap Directive.definedName

/-- Whether an identifier is defined in an environment. -/
def Env.isDef (e : Env) (name : String) : Bool := (e name).isSome

/-- The environment after the byte-order group of lines 173 to 181, read at an
identifier `m`: `w` becomes `v` when both `a` and `b` are defined, and nothing else
changes. -/
def endianEnv (e : Env) (a b w v : String) : Env :=
  fun m => if ((e a).isSome && (e b).isSome) = true ∧ m = w then some v else e m

/-- The diagnostics of the byte-order group of lines 173 to 181. -/
def endianDiag (e : Env) (a b w v : String) : List Diag :=
  if (e a).isSome && (e b).isSome then redefDiag e w v else []

/-- Value of one decimal digit. -/
def digitValue (c : Char) : Option Nat :=
  if c.isDigit then some (c.toNat - 48) else none

/-- Read a replacement text as an unsigned decimal integer constant. -/
def parseDecimal (text : String) : Option Nat :=
  match text.toList with
  | [] => none
  | cs => cs.foldl (fun acc c => acc.bind (fun a => (digitValue c).map (fun d => 10 * a + d))) (some 0)

/-- The value `config.h` gives to a `SIZEOF_...` identifier (0 when it gives none). -/
def sizeofValue (name : String) : Nat :=
  match (process emptyEnv).env name with
  | some text => (parseDecimal text).getD 0
  | none => 0

/-- Line 118. -/
def SIZEOF_LONG : Nat := sizeofValue "SIZEOF_LONG"
/-- Line 121. -/
def SIZEOF_LONG_LONG : Nat := sizeofValue "SIZEOF_LONG_LONG"
/-- Line 124. -/
def SIZEOF_SIZE_T : Nat := sizeofValue "SIZEOF_SIZE_T"
/-- Line 127. -/
def SIZEOF_UNSIGNED_INT : Nat := sizeofValue "SIZEOF_UNSIGNED_INT"
/-- Line 130. -/
def SIZEOF_UNSIGNED_LONG : Nat := sizeofValue "SIZEOF_UNSIGNED_LONG"
/-- Line 133. -/
def SIZEOF_UNSIGNED_SHORT : Nat := sizeofValue "SIZEOF_UNSIGNED_SHORT"

/-- Bits per byte on the i686 target (`sizeof` counts bytes of this width). -/
def CHAR_BIT : Nat := 8

/-- A C integer type as far as its value range is concerned: its `sizeof` and whether
it is a signed type.  In C `long` and `long long` are signed; `size_t` and the
`unsigned` types are not. -/
structure IntType where
  bytes : Nat
  signed : Bool
deriving DecidableEq, Repr

/-- Width of the object representation in bits. -/
def IntType.bits (t : IntType) : Nat := CHAR_BIT * t.bytes

/-- The values a type can represent: two's complement for a signed type, the
naturals below `2 ^ bits` for an unsigned one. -/
def IntType.holds (t : IntType) (v : Int) : Prop :=
  if t.signed then -(2 : Int) ^ (t.bits - 1) ≤ v ∧ v < (2 : Int) ^ (t.bits - 1)
  else 0 ≤ v ∧ v < (2 : Int) ^ t.bits

instance (t : IntType) (v : Int) : Decidable (t.holds v) := by
  unfold IntType.holds; exact inferInstance

/-- C type `unsigned short`. -/
def unsignedShort : IntType := { bytes := SIZEOF_UNSIGNED_SHORT, signed := false }
/-- C type `unsigned int`. -/
def unsignedInt : IntType := { bytes := SIZEOF_UNSIGNED_INT, signed := false }
/-- C type `unsigned long`. -/
def unsignedLong : IntType := { bytes := SIZEOF_UNSIGNED_LONG, signed := false }
/-- C type `size_t`. -/
def sizeT : IntType := { bytes := SIZEOF_SIZE_T, signed := false }
/-- C type `long`. -/
def long : IntType := { bytes := SIZEOF_LONG, signed := true }
/-- C type `long long`. -/
def longLong : IntType := { bytes := SIZEOF_LONG_LONG, signed := true }

end ConfigH

namespace Rsync

/-! ## Part II: the delta engine of the design document

The sources of the engine are not among the files of this build configuration, so
every definition of this part follows the design document. -/

/-- Modelled from the spec: a byte of the opaque byte buffers the core consumes and
produces (the engine sources are missing). -/
abbrev Byte := Fin 256

/-- Modelled from the spec: the error kinds of section 7 (the engine sources are
missing). -/
inductive Error where
  | MalformedSignature
  | MalformedDelta
  | OutOfRangeCopy
  | CorruptPatch
  | ConfigError
deriving DecidableEq, Repr

/-- Modelled from the spec: what sections 4.1, 4.2 and 6 leave to the reference
implementation, taken as parameters: the mixing constant added to every byte by the
rolling checksum, the magic number of the signature header, and the strong hash, a
pure function with a digest of fixed size `digestLen` (the maximum digest size). -/
structure Params where
  charOffset : Nat
  sigMagic : Nat
  digestLen : Nat
  strongHash : List Byte → List Byte
  strongHash_length : ∀ x, (strongHash x).length = digestLen

/-- Modelled from the spec: the rolling checksum state of section 4.1 (missing source):
the window length and the two 16-bit halves `s1`, `s2`. -/
structure RollSum where
  count : Nat
  s1 : Nat
  s2 : Nat
deriving DecidableEq, Repr

/-- Modelled from the spec: the weighted sum of section 4.1 (missing source); the byte
at distance `i` from the oldest one of a window of `L` has weight `L - i`, the only
weighting under which a one-byte slide removes the oldest byte's contribution. -/
def weightedSum : List Nat → Nat
  | [] => 0
  | x :: xs => (xs.length + 1) * x + weightedSum xs

/-- Modelled from the spec: `init(window)` of section 4.1 (missing source): `s1` is the
byte sum and `s2` the weighted sum, each mod `2 ^ 16`. -/
def RollSum.init (off : Nat) (window : List Byte) : RollSum :=
  { count := window.length,
    s1 := (window.map (fun b => b.val + off)).sum % 65536,
    s2 := weightedSum (window.map (fun b => b.val + off)) % 65536 }

/-- Modelled from the spec: `roll(out_byte, in_byte)` of section 4.1 (missing source),
the constant-time update: remove the oldest byte's contribution, add the new byte, with
16-bit wrap-around. -/
def RollSum.roll (off : Nat) (r : RollSum) (outByte inByte : Byte) : RollSum :=
  { count := r.count,
    s1 := (((r.s1 : Int) - outByte.val + inByte.val) % 65536).toNat,
    s2 := (((r.s2 : Int) - r.count * (outByte.val + off)
            + (((r.s1 : Int) - outByte.val + inByte.val) % 65536)) % 65536).toNat }

/-- Modelled from the spec: `value()` of section 4.1 (missing source), the two halves
combined as `(s2 << 16) | s1`. -/
def RollSum.value (r : RollSum) : Nat := (r.s2 <<< 16) ||| r.s1

/-- Modelled from the spec: the configuration `{block_len L, strong_len S}` of
section 4.3 (missing source). -/
structure Config where
  block_len : Nat
  strong_len : Nat
deriving DecidableEq, Repr

/-- Modelled from the spec: the Signature of section 3 (missing source): the header and
one `(weak_sum, strong_sum)` pair per block, in block order. -/
structure Signature where
  magic : Nat
  block_len : Nat
  strong_len : Nat
  sums : List (Nat × List Byte)
deriving DecidableEq, Repr

/-- Modelled from the spec: the partition of section 4.3 (missing source) into blocks
of `L` bytes, the final block possibly shorter; `fuel` bounds the number of blocks. -/
def blocksAux (L : Nat) : Nat → List Byte → List (List Byte)
  | 0, _ => []
  | fuel + 1, data =>
      if data.isEmpty then [] else data.take L :: blocksAux L fuel (data.drop L)

/-- Modelled from the spec: the blocks of a basis (section 4.3, missing source). -/
def blocks (L : Nat) (data : List Byte) : List (List Byte) := blocksAux L data.length data

/-- Modelled from the spec: the weak sum of a block, the full-window initial value of
the rolling checksum (section 4.3, missing source). -/
def weakSum (P : Params) (blk : List Byte) : Nat := (RollSum.init P.charOffset blk).value

/-- Modelled from the spec: the strong hash truncated to `S` bytes (section 4.2,
missing source). -/
def strongSum (P : Params) (S : Nat) (blk : List Byte) : List Byte := (P.strongHash blk).take S

/-- Modelled from the spec: `build_signature` of sections 4.3 and 7 (missing source):
`ConfigError` on an invalid block or strong length, otherwise one pair per block. -/
def build_signature (P : Params) (cfg : Config) (basis : List Byte) : Except Error Signature :=
  if cfg.block_len = 0 ∨ P.digestLen < cfg.strong_len then Except.error Error.ConfigError
  else Except.ok
    { magic := P.sigMagic, block_len := cfg.block_len, strong_len := cfg.strong_len,
      sums := (blocks cfg.block_len basis).map
        (fun blk => (weakSum P blk, strongSum P cfg.strong_len blk)) }

/-- Modelled from the spec: a candidate block of the SignatureIndex (section 3, missing
source). -/
structure Candidate where
  block_index : Nat
  strong_sum : List Byte
deriving DecidableEq, Repr

/-- Modelled from the spec: the SignatureIndex of section 3 (missing source): the
mapping from a weak sum to its candidates in block order. -/
structure SignatureIndex where
  block_len : Nat
  strong_len : Nat
  table : Nat → List Candidate

/-- Modelled from the spec: the candidates with weak sum `weak` among the pairs of a
signature, numbered from block `i` on, in block order (section 3, missing source). -/
def candidatesFrom (weak : Nat) : Nat → List (Nat × List Byte) → List Candidate
  | _, [] => []
  | i, (w, s) :: rest =>
      if w = weak then { block_index := i, strong_sum := s } :: candidatesFrom weak (i + 1) rest
      else candidatesFrom weak (i + 1) rest

/-- Modelled from the spec: `load_signature` of section 4.4 (missing source):
`MalformedSignature` on an unrecognized magic, a strong length above the maximum digest
size, or a record that is not `strong_len` bytes long. -/
def load_signature (P : Params) (sig : Signature) : Except Error SignatureIndex :=
  if sig.magic ≠ P.sigMagic then Except.error Error.MalformedSignature
  else if P.digestLen < sig.strong_len then Except.error Error.MalformedSignature
  else if sig.sums.any (fun r => r.2.length != sig.strong_len) then
    Except.error Error.MalformedSignature
  else Except.ok
    { block_len := sig.block_len, strong_len := sig.strong_len,
      table := fun weak => candidatesFrom weak 0 sig.sums }

/-- Modelled from the spec: `candidates(weak_sum)` of section 4.4 (missing source). -/
def candidates (idx : SignatureIndex) (weak : Nat) : List Candidate := idx.table weak

/-- Modelled from the spec: the commands of a decoded delta (sections 3 and 4.6,
missing source). -/
inductive Command where
  | Copy (offset length : Nat)
  | Literal (bytes : List Byte)
  | EndToken
deriving DecidableEq, Repr

/-- Modelled from the spec: the Delta of section 3 (missing source): the commands, the
last one `EndToken`, and the strong checksum of the whole new data. -/
structure Delta where
  commands : List Command
  checksum : List Byte
deriving DecidableEq, Repr

/-- Modelled from the spec: the verification of section 4.5 (missing source): on a weak
hit the strong hash of the window is compared with each candidate, the first match in
block order wins. -/
def findMatch (P : Params) (idx : SignatureIndex) (weak : Nat) (window : List Byte) :
    Option Nat :=
  match candidates idx weak with
  | [] => none
  | cands =>
      (cands.find? (fun c => c.strong_sum = strongSum P idx.strong_len window)).map
        (fun c => c.block_index)

/-- Modelled from the spec: flushing the pending literal bytes as one `Literal`
(section 4.5, missing source). -/
def flushLiteral (pending : List Byte) : List Command :=
  if pending.isEmpty then [] else [Command.Literal pending]

/-- Modelled from the spec: the one-byte slide of section 4.5 (missing source): the
checksum is rolled when a byte enters the window and left alone at the end of input. -/
def slide (P : Params) (L : Nat) (sum : RollSum) (outByte : Byte) (rest : List Byte) : RollSum :=
  match rest.get? (L - 1) with
  | some inByte => sum.roll P.charOffset outByte inByte
  | none => sum

/-- Modelled from the spec: the core loop of section 4.5 (missing source).  `sum` is the
rolling checksum of the window `rest.take L`, `pending` the literal run.  A verified
match flushes the literal run, emits `Copy`, skips `L` bytes and re-seeds; a miss moves
one byte to the literal run and slides; with less than a window left the remaining
bytes are flushed.  `fuel` bounds the number of iterations. -/
def deltaLoop (P : Params) (idx : SignatureIndex) :
    Nat → RollSum → List Byte → List Byte → List Command
  | 0, _, _, _ => []
  | fuel + 1, sum, pending, rest =>
      if rest.length < idx.block_len then flushLiteral (pending ++ rest)
      else
        match findMatch P idx sum.value (rest.take idx.block_len) with
        | some i =>
            flushLiteral pending ++
              Command.Copy (i * idx.block_len) idx.block_len ::
                deltaLoop P idx fuel
                  (RollSum.init P.charOffset ((rest.drop idx.block_len).take idx.block_len))
                  [] (rest.drop idx.block_len)
        | none =>
            match rest with
            | [] => flushLiteral pending
            | b :: rest1 =>
                deltaLoop P idx fuel (slide P idx.block_len sum b rest1) (pending ++ [b]) rest1

/-- Modelled from the spec: emitting a held-back `Copy`, if any (section 4.5, missing
source). -/
def flushCopy : Option (Nat × Nat) → List Command
  | none => []
  | some (o, l) => [Command.Copy o l]

/-- Modelled from the spec: coalescing of section 4.5 (missing source): adjacent `Copy`
commands whose ranges are contiguous in the basis become one. `held` is the `Copy`
still open for extension. -/
def coalesceFrom : Option (Nat × Nat) → List Command → List Command
  | held, [] => flushCopy held
  | none, Command.Copy o l :: rest => coalesceFrom (some (o, l)) rest
  | some (o1, l1), Command.Copy o l :: rest =>
      if o = o1 + l1 then coalesceFrom (some (o1, l1 + l)) rest
      else Command.Copy o1 l1 :: coalesceFrom (some (o, l)) rest
  | held, c :: rest => flushCopy held ++ c :: coalesceFrom none rest

/-- Modelled from the spec: `compute_delta` of section 4.5 (missing source): the loop
over the whole new data, coalesced, then `EndToken` and the whole-data checksum. -/
def compute_delta (P : Params) (idx : SignatureIndex) (target : List Byte) : Delta :=
  { commands :=
      coalesceFrom none
        (deltaLoop P idx (target.length + 1)
          (RollSum.init P.charOffset (target.take idx.block_len)) [] target)
        ++ [Command.EndToken],
    checksum := P.strongHash target }

/-- Modelled from the spec: the random-access read `read_at(offset, length)` of
section 9 on an in-memory basis (missing source). -/
def read_at (basis : List Byte) (offset length : Nat) : List Byte :=
  (basis.drop offset).take length

/-- Modelled from the spec: the state of a patch job (sections 4.7 and 9, missing
source): still replaying with the output so far, finished, or failed. -/
inductive PatchState where
  | running (out : List Byte)
  | done (out : List Byte)
  | failed (e : Error)
deriving DecidableEq, Repr

/-- Modelled from the spec: one step of the patch applier (section 4.7, missing
source).  `verify` says whether the optional checksum verification is on. -/
def patchStep (P : Params) (verify : Bool) (basis checksum : List Byte) :
    PatchState → Command → PatchState
  | PatchState.running out, Command.Copy o l =>
      if basis.length < o + l then PatchState.failed Error.OutOfRangeCopy
      else PatchState.running (out ++ read_at basis o l)
  | PatchState.running out, Command.Literal bytes => PatchState.running (out ++ bytes)
  | PatchState.running out, Command.EndToken =>
      if verify && (P.strongHash out != checksum) then PatchState.failed Error.CorruptPatch
      else PatchState.done out
  | PatchState.done out, _ => PatchState.done out
  | PatchState.failed e, _ => PatchState.failed e

/-- Modelled from the spec: replaying a command sequence from a state (section 4.7,
missing source). -/
def patchRun (P : Params) (verify : Bool) (basis checksum : List Byte)
    (s : PatchState) (cmds : List Command) : PatchState :=
  cmds.foldl (patchStep P verify basis checksum) s

/-- Modelled from the spec: the result of a patch job (sections 4.7 and 7, missing
source); a stream that stops before `EndToken` is a truncated delta. -/
def patchResult : PatchState → Except Error (List Byte)
  | PatchState.running _ => Except.error Error.MalformedDelta
  | PatchState.done out => Except.ok out
  | PatchState.failed e => Except.error e

/-- Modelled from the spec: `apply_patch` of section 4.7 (missing source). -/
def apply_patch (P : Params) (verify : Bool) (basis : List Byte) (d : Delta) :
    Except Error (List Byte) :=
  patchResult (patchRun P verify basis d.checksum (PatchState.running []) d.commands)

/-- Modelled from the spec: the composition of the round-trip property of section 8,
`apply_patch(B, compute_delta(load_signature(build_signature(B)), T))`. -/
def roundTrip (P : Params) (cfg : Config) (verify : Bool) (basis target : List Byte) :
    Except Error (List Byte) :=
  match build_signature P cfg basis with
  | Except.error e => Except.error e
  | Except.ok sig =>
      match load_signature P sig with
      | Except.error e => Except.error e
      | Except.ok idx => apply_patch P verify basis (compute_delta P idx target)

/-- Modelled from the spec: the (weak, truncated strong) pair of a window or block
(sections 4.3 and 4.5, missing source). -/
def fingerprint (P : Params) (S : Nat) (bytes : List Byte) : Nat × List Byte :=
  (weakSum P bytes, strongSum P S bytes)

/-- No window of `L` bytes of the target has the fingerprint of a block of the basis
with different bytes. -/
def NoCollision (P : Params) (cfg : Config) (basis target : List Byte) : Prop :=
  ∀ i, i + cfg.block_len ≤ target.length → ∀ blk ∈ blocks cfg.block_len basis,
    fingerprint P cfg.strong_len ((target.drop i).take cfg.block_len)
        = fingerprint P cfg.strong_len blk →
      (target.drop i).take cfg.block_len = blk

/-- The index `load_signature` returns on the signature `build_signature` makes. -/
def builtIndex (P : Params) (cfg : Config) (basis : List Byte) : SignatureIndex :=
  { block_len := cfg.block_len, strong_len := cfg.strong_len,
    table := fun weak => candidatesFrom weak 0
      ((blocks cfg.block_len basis).map
        (fun blk => (weakSum P blk, strongSum P cfg.strong_len blk))) }

/-- Every verified match of a window of `rest` names a block range of the basis that
lies within the basis and holds the bytes of the window. -/
def MatchesSound (P : Params) (idx : SignatureIndex) (basis rest : List Byte) : Prop :=
  ∀ j, j + idx.block_len ≤ rest.length → ∀ k,
    findMatch P idx (weakSum P ((rest.drop j).take idx.block_len))
        ((rest.drop j).take idx.block_len) = some k →
      k * idx.block_len + idx.block_len ≤ basis.length ∧
        read_at basis (k * idx.block_len) idx.block_len = (rest.drop j).take idx.block_len

/-- A sample strong hash for evaluating the model on concrete inputs: the first four
bytes of the input padded with zeros. -/
def sampleHash (x : List Byte) : List Byte := (x ++ List.replicate 4 0).take 4

/-- A sample instance of the parameters for evaluating the model on concrete inputs. -/
def sampleParams : Params :=
  { charOffset := 31, sigMagic := 1920139574, digestLen := 4, strongHash := sampleHash,
    strongHash_length := by intro x; simp [sampleHash] }

end Rsync

/-! ## Theorems on `config.h` -/

namespace ConfigH

theorem run_nil (s : State) : run [] s = s := rfl

theorem run_append (p q : List Directive) (s : State) : run (p ++ q) s = run q (run p s) := by
  simp [run, List.foldl_append]

theorem run_comment (t : String) (r : List Directive) (s : State) :
    run (Directive.comment t :: r) s = run r s := rfl

theorem run_define_top (n v : String) (r : List Directive) (e : Env) (d : List Diag) :
    run (Directive.define n v :: r) { env := e, stack := [], diags := d }
      = run r { env := e.set n v, stack := [], diags := d ++ redefDiag e n v } := rfl

theorem set_getD_self (e : Env) (n v : String) (h : e n ≠ none) :
    e.set n ((e n).getD v) = e := by
  funext m
  unfold Env.set
  split
  · next hm =>
    subst hm
    cases hv : e m with
    | none => exact absurd hv h
    | some w => rfl
  · rfl

/-- A guarded definition `#ifndef n / #define n v / #endif` outside any conditional
keeps a predefined value and supplies `v` otherwise; it never raises a diagnostic. -/
theorem run_guard_top (n v : String) (r : List Directive) (e : Env) (d : List Diag) :
    run (Directive.ifndef n :: Directive.define n v :: Directive.endif :: r)
        { env := e, stack := [], diags := d }
      = run r { env := e.set n ((e n).getD v), stack := [], diags := d } := by
  cases h : e n with
  | none =>
    simp [run, step, live, h, redefDiag]
  | some w =>
    have h2 : e.set n w = e := by
      have := set_getD_self e n v (by simp [h])
      simpa [h] using this
    simp [run, step, live, h, h2]

/-- The nested group of lines 173 to 181 outside any conditional. -/
theorem run_endian_top (a b w v w2 t : String) (r : List Directive) (e : Env) (d : List Diag) :
    run (Directive.ifDefined a :: Directive.ifDefined b :: Directive.define w v ::
          Directive.endif :: Directive.elseD :: Directive.ifndef w2 :: Directive.comment t ::
          Directive.endif :: Directive.endif :: r)
        { env := e, stack := [], diags := d }
      = run r { env := endianEnv e a b w v, stack := [], diags := d ++ endianDiag e a b w v } := by
  have hset : endianEnv e a b w v = if (e a).isSome && (e b).isSome then e.set w v else e := by
    funext m
    cases ha : (e a).isSome <;> cases hb : (e b).isSome <;> simp [endianEnv, Env.set, ha, hb]
  rw [hset]
  cases ha : (e a).isSome <;> cases hb : (e b).isSome <;>
    simp [run, step, live, ha, hb, endianDiag]

/-- The replacement text `config.h` gives to the six `SIZEOF_...` identifiers, whatever
was predefined. -/
theorem sizeof_texts (e : Env) :
    (process e).env "SIZEOF_LONG" = some "4" ∧
    (process e).env "SIZEOF_LONG_LONG" = some "8" ∧
    (process e).env "SIZEOF_SIZE_T" = some "4" ∧
    (process e).env "SIZEOF_UNSIGNED_INT" = some "4" ∧
    (process e).env "SIZEOF_UNSIGNED_LONG" = some "4" ∧
    (process e).env "SIZEOF_UNSIGNED_SHORT" = some "2" := by
  simp only [process, configH, run_nil, run_comment, run_define_top, run_guard_top,
    run_endian_top]
  simp [Env.set, endianEnv]

theorem parseDecimal_two : parseDecimal "2" = some 2 := by decide
theorem parseDecimal_four : parseDecimal "4" = some 4 := by decide
theorem parseDecimal_eight : parseDecimal "8" = some 8 := by decide

theorem sizeofValue_of (n text : String) (k : Nat)
    (h : (process emptyEnv).env n = some text) (hp : parseDecimal text = some k) :
    sizeofValue n = k := by
  unfold sizeofValue
  rw [h]
  show (parseDecimal text).getD 0 = k
  rw [hp]
  rfl

/-- The six sizes as numbers. -/
theorem sizeof_values :
    SIZEOF_LONG = 4 ∧ SIZEOF_LONG_LONG = 8 ∧ SIZEOF_SIZE_T = 4 ∧ SIZEOF_UNSIGNED_INT = 4 ∧
      SIZEOF_UNSIGNED_LONG = 4 ∧ SIZEOF_UNSIGNED_SHORT = 2 := by
  obtain ⟨h1, h2, h3, h4, h5, h6⟩ := sizeof_texts emptyEnv
  exact ⟨sizeofValue_of _ _ _ h1 parseDecimal_four, sizeofValue_of _ _ _ h2 parseDecimal_eight,
    sizeofValue_of _ _ _ h3 parseDecimal_four, sizeofValue_of _ _ _ h4 parseDecimal_four,
    sizeofValue_of _ _ _ h5 parseDecimal_four, sizeofValue_of _ _ _ h6 parseDecimal_two⟩

theorem bits_values :
    unsignedShort.bits = 16 ∧ unsignedInt.bits = 32 ∧ unsignedLong.bits = 32 ∧
      sizeT.bits = 32 ∧ long.bits = 32 ∧ longLong.bits = 64 := by
  obtain ⟨h1, h2, h3, h4, h5, h6⟩ := sizeof_values
  simp [unsignedShort, unsignedInt, unsignedLong, sizeT, long, longLong, IntType.bits, CHAR_BIT,
    h1, h2, h3, h4, h5, h6]

theorem holds_unsigned (t : IntType) (h : t.signed = false) (v : Int) :
    t.holds v ↔ 0 ≤ v ∧ v < (2 : Int) ^ t.bits := by
  simp [IntType.holds, h]

theorem holds_signed (t : IntType) (h : t.signed = true) (v : Int) :
    t.holds v ↔ -(2 : Int) ^ (t.bits - 1) ≤ v ∧ v < (2 : Int) ^ (t.bits - 1) := by
  simp [IntType.holds, h]

/-- C5, as stated, fails at `long long`: `2 ^ 63` is a value of a 64-bit unsigned field
that the signed eight-byte `long long` does not represent. -/
theorem long_long_misses_two_pow_63 :
    (0 : Int) ≤ 2 ^ 63 ∧ (2 : Int) ^ 63 < 2 ^ 64 ∧ ¬ longLong.holds (2 ^ 63) := by
  refine ⟨by norm_num, by norm_num, ?_⟩
  rw [holds_signed longLong rfl, bits_values.2.2.2.2.2]
  norm_num

/-- C5, amended: with 8-bit bytes `unsigned short` holds every value reduced mod `2 ^ 16`,
`unsigned int` holds exactly the values below `2 ^ 32`, `long long` is 64 bits wide and
holds exactly the values from `-2 ^ 63` up to `2 ^ 63 - 1` (so every 64-bit unsigned
offset or length below `2 ^ 63`), and none of `long`, `unsigned long`, `size_t` (32 bits
each) holds every value below `2 ^ 64`. -/
theorem type_sizes_supply_widths :
    (SIZEOF_UNSIGNED_SHORT = 2 ∧ ∀ n : Nat, unsignedShort.holds ((n % 2 ^ 16 : Nat) : Int)) ∧
    (SIZEOF_UNSIGNED_INT = 4 ∧ ∀ v : Int, unsignedInt.holds v ↔ (0 ≤ v ∧ v < 2 ^ 32)) ∧
    (SIZEOF_LONG_LONG = 8 ∧ longLong.bits = 64 ∧
      ∀ v : Int, longLong.holds v ↔ (-(2 : Int) ^ 63 ≤ v ∧ v < 2 ^ 63)) ∧
    (SIZEOF_LONG = 4 ∧ SIZEOF_UNSIGNED_LONG = 4 ∧ SIZEOF_SIZE_T = 4 ∧
      (¬ ∀ v : Int, 0 ≤ v → v < 2 ^ 64 → long.holds v) ∧
      (¬ ∀ v : Int, 0 ≤ v → v < 2 ^ 64 → unsignedLong.holds v) ∧
      (¬ ∀ v : Int, 0 ≤ v → v < 2 ^ 64 → sizeT.holds v)) := by
  obtain ⟨hl, hll, hst, hui, hul, hus⟩ := sizeof_values
  obtain ⟨b1, b2, b3, b4, b5, b6⟩ := bits_values
  refine ⟨⟨hus, ?_⟩, ⟨hui, ?_⟩, ⟨hll, b6, ?_⟩, hl, hul, hst, ?_, ?_, ?_⟩
  · intro n
    rw [holds_unsigned unsignedShort rfl, b1]
    have : n % 2 ^ 16 < 2 ^ 16 := Nat.mod_lt _ (by norm_num)
    constructor
    · exact Int.natCast_nonneg _
    · exact_mod_cast this
  · intro v
    rw [holds_unsigned unsignedInt rfl, b2]
  · intro v
    rw [holds_signed longLong rfl, b6]
  · intro h
    have := h (2 ^ 32) (by norm_num) (by norm_num)
    rw [holds_signed long rfl, b5] at this
    norm_num at this
  · intro h
    have := h (2 ^ 32) (by norm_num) (by norm_num)
    rw [holds_unsigned unsignedLong rfl, b3] at this
    norm_num at this
  · intro h
    have := h (2 ^ 32) (by norm_num) (by norm_num)
    rw [holds_unsigned sizeT rfl, b4] at this
    norm_num at this


/-- C4: after `config.h`, `WORDS_BIGENDIAN` is defined exactly when it was predefined or
both `AC_APPLE_UNIVERSAL_BUILD` and `__BIG_ENDIAN__` were; with none of the three
predefined it stays undefined. -/
theorem words_bigendian_defined_iff (e : Env) :
    ((process e).env.isDef "WORDS_BIGENDIAN" = true ↔
        (e.isDef "WORDS_BIGENDIAN" = true ∨
          (e.isDef "AC_APPLE_UNIVERSAL_BUILD" = true ∧ e.isDef "__BIG_ENDIAN__" = true))) ∧
    (e.isDef "WORDS_BIGENDIAN" = false → e.isDef "AC_APPLE_UNIVERSAL_BUILD" = false →
        e.isDef "__BIG_ENDIAN__" = false → (process e).env "WORDS_BIGENDIAN" = none) := by
  simp only [process, configH, run_nil, run_comment, run_define_top, run_guard_top,
    run_endian_top]
  simp only [Env.isDef]
  constructor
  · cases ha : (e "AC_APPLE_UNIVERSAL_BUILD").isSome <;> cases hb : (e "__BIG_ENDIAN__").isSome <;>
      simp [Env.set, endianEnv, ha, hb]
  · intro hw ha hb
    simp [Env.set, endianEnv, ha, hb]
    simpa using hw

/-- Witness of C4 at the environment with nothing predefined. -/
theorem words_bigendian_defined_iff_witness :
    (process emptyEnv).env "WORDS_BIGENDIAN" = none :=
  (words_bigendian_defined_iff emptyEnv).2 rfl rfl rfl

/-- C6: when none of `HAVE_LIBZ`, `HAVE_ZLIB_H`, `HAVE_LIBBZ2`, `HAVE_BZLIB_H` is
predefined, none of them is defined after `config.h`. -/
theorem no_compression_codec (e : Env)
    (hz : e "HAVE_LIBZ" = none) (hzh : e "HAVE_ZLIB_H" = none)
    (hb : e "HAVE_LIBBZ2" = none) (hbh : e "HAVE_BZLIB_H" = none) :
    (process e).env "HAVE_LIBZ" = none ∧ (process e).env "HAVE_ZLIB_H" = none ∧
      (process e).env "HAVE_LIBBZ2" = none ∧ (process e).env "HAVE_BZLIB_H" = none := by
  simp only [process, configH, run_nil, run_comment, run_define_top, run_guard_top,
    run_endian_top]
  simp [Env.set, endianEnv, hz, hzh, hb, hbh]

/-- Witness of C6 at the environment with nothing predefined. -/
theorem no_compression_codec_witness :
    (process emptyEnv).env "HAVE_LIBZ" = none ∧ (process emptyEnv).env "HAVE_ZLIB_H" = none ∧
      (process emptyEnv).env "HAVE_LIBBZ2" = none ∧ (process emptyEnv).env "HAVE_BZLIB_H" = none :=
  no_compression_codec emptyEnv rfl rfl rfl rfl

/-- C7: each of the six guarded extension identifiers is defined after `config.h`, with
its predefined replacement text if it had one and with `1` otherwise. -/
theorem guarded_extensions (e : Env) :
    (process e).env "_ALL_SOURCE" = some ((e "_ALL_SOURCE").getD "1") ∧
    (process e).env "_GNU_SOURCE" = some ((e "_GNU_SOURCE").getD "1") ∧
    (process e).env "_POSIX_PTHREAD_SEMANTICS" = some ((e "_POSIX_PTHREAD_SEMANTICS").getD "1") ∧
    (process e).env "_TANDEM_SOURCE" = some ((e "_TANDEM_SOURCE").getD "1") ∧
    (process e).env "__EXTENSIONS__" = some ((e "__EXTENSIONS__").getD "1") ∧
    (process e).env "_DARWIN_USE_64_BIT_INODE" = some ((e "_DARWIN_USE_64_BIT_INODE").getD "1") := by
  simp only [process, configH, run_nil, run_comment, run_define_top, run_guard_top,
    run_endian_top]
  simp [Env.set, endianEnv]

/-- C8: the header does not open with an include guard, and still processing `config.h`
twice in a row gives the same environment as processing it once, and the second pass
adds no diagnostic (no identifier is redefined with a different replacement text); the
conditional stack is empty after either. -/
theorem process_twice (e : Env) :
    (∀ g, configH.head? ≠ some (Directive.ifndef g)) ∧
    (run (configH ++ configH) { env := e, stack := [], diags := [] }).env = (process e).env ∧
    (run (configH ++ configH) { env := e, stack := [], diags := [] }).diags = (process e).diags ∧
    (run (configH ++ configH) { env := e, stack := [], diags := [] }).stack = [] ∧
    (process e).stack = [] := by
  refine ⟨fun g => by simp [configH], ?_⟩
  rw [run_append]
  simp only [process, configH, run_nil, run_comment, run_define_top, run_guard_top,
    run_endian_top]
  refine ⟨?_, ?_, trivial, trivial⟩
  · funext m
    by_cases hm : m ∈ definedNames
    · revert m
      simp [definedNames, configH, Directive.definedName, Env.set, endianEnv]
      intro ha hb
      simp [ha, hb]
    · simp only [definedNames, configH, Directive.definedName, List.filterMap_cons,
        List.filterMap_nil, List.mem_cons, List.mem_nil_iff, or_false, not_or] at hm
      simp [Env.set, endianEnv, hm]
  · simp only [Env.set, endianEnv, endianDiag, redefDiag]
    simp
    intro ha hb
    simp [ha, hb]

/-- C9: `config.h` leaves `_FILE_OFFSET_BITS`, `_LARGEFILE_SOURCE` and `_LARGE_FILES` as
they were, while it defines `HAVE_FSEEKO` as `1` and gives `long` four bytes. -/
theorem large_file_support_untouched (e : Env) :
    (process e).env "_FILE_OFFSET_BITS" = e "_FILE_OFFSET_BITS" ∧
    (process e).env "_LARGEFILE_SOURCE" = e "_LARGEFILE_SOURCE" ∧
    (process e).env "_LARGE_FILES" = e "_LARGE_FILES" ∧
    (process e).env "HAVE_FSEEKO" = some "1" ∧
    (process e).env "SIZEOF_LONG" = some "4" ∧
    SIZEOF_LONG = 4 ∧ long.bits = 32 := by
  simp only [process, configH, run_nil, run_comment, run_define_top, run_guard_top,
    run_endian_top]
  refine ⟨?_, ?_, ?_, ?_, ?_, ?_, ?_⟩
  · simp [Env.set, endianEnv]
  · simp [Env.set, endianEnv]
  · simp [Env.set, endianEnv]
  · simp [Env.set, endianEnv]
  · simp [Env.set, endianEnv]
  · exact sizeof_values.1
  · simp [long, IntType.bits, CHAR_BIT, sizeof_values.1]

end ConfigH

/-! ## Theorems on the delta engine -/

namespace Rsync

theorem weightedSum_append_singleton (xs : List Nat) (y : Nat) :
    weightedSum (xs ++ [y]) = weightedSum xs + xs.sum + y := by
  induction xs with
  | nil => simp [weightedSum]
  | cons x xs ih =>
    rw [List.cons_append, weightedSum, weightedSum, ih, List.length_append,
      List.length_singleton, List.sum_cons]
    ring

/-- Rolling the checksum of `a :: rest` by one byte gives the checksum of the slid
window. -/
theorem roll_init_cons (off : Nat) (a : Byte) (rest : List Byte) (b : Byte) :
    (RollSum.init off (a :: rest)).roll off a b = RollSum.init off (rest ++ [b]) := by
  have hw := weightedSum_append_singleton (rest.map (fun b => b.val + off)) (b.val + off)
  simp only [RollSum.init, RollSum.roll, List.map_cons, List.sum_cons, weightedSum,
    List.length_cons, List.length_append, List.length_singleton, List.map_append,
    List.map_nil, List.sum_append, List.sum_nil, List.length_map, hw, RollSum.mk.injEq]
  generalize (rest.map (fun b => b.val + off)).sum = A
  generalize weightedSum (rest.map (fun b => b.val + off)) = W
  have hK : (((rest.length + 1 : Nat) : Int) * ((a.val : Int) + (off : Int)))
      = (((rest.length + 1) * (a.val + off) : Nat) : Int) := by push_cast; ring
  generalize hk : (rest.length + 1) * (a.val + off) = K at hK
  refine ⟨by simp, ?_, ?_⟩
  · omega
  · push_cast at hK ⊢
    rw [hK]
    omega

theorem init_s1_lt (off : Nat) (w : List Byte) : (RollSum.init off w).s1 < 65536 :=
  Nat.mod_lt _ (by norm_num)

theorem init_s2_lt (off : Nat) (w : List Byte) : (RollSum.init off w).s2 < 65536 :=
  Nat.mod_lt _ (by norm_num)

theorem value_eq (r : RollSum) (h1 : r.s1 < 65536) : r.value = r.s2 * 65536 + r.s1 := by
  unfold RollSum.value
  rw [Nat.shiftLeft_eq]
  have h := Nat.mul_add_lt_is_or (show r.s1 < 2 ^ 16 by simpa using h1) r.s2
  rw [Nat.mul_comm (r.s2) (2 ^ 16), ← h]


/-! ### The patch applier -/

theorem patchRun_append (P : Params) (verify : Bool) (basis checksum : List Byte)
    (s : PatchState) (a b : List Command) :
    patchRun P verify basis checksum s (a ++ b)
      = patchRun P verify basis checksum (patchRun P verify basis checksum s a) b := by
  simp [patchRun, List.foldl_append]

theorem patchRun_cons (P : Params) (verify : Bool) (basis checksum : List Byte)
    (s : PatchState) (c : Command) (cs : List Command) :
    patchRun P verify basis checksum s (c :: cs)
      = patchRun P verify basis checksum (patchStep P verify basis checksum s c) cs := rfl

theorem patchRun_nil (P : Params) (verify : Bool) (basis checksum : List Byte)
    (s : PatchState) : patchRun P verify basis checksum s [] = s := rfl

theorem patchStep_failed (P : Params) (verify : Bool) (basis checksum : List Byte)
    (e : Error) (c : Command) :
    patchStep P verify basis checksum (PatchState.failed e) c = PatchState.failed e := by
  cases c <;> rfl

theorem patchStep_done (P : Params) (verify : Bool) (basis checksum : List Byte)
    (out : List Byte) (c : Command) :
    patchStep P verify basis checksum (PatchState.done out) c = PatchState.done out := by
  cases c <;> rfl

theorem patchRun_failed (P : Params) (verify : Bool) (basis checksum : List Byte)
    (e : Error) (cs : List Command) :
    patchRun P verify basis checksum (PatchState.failed e) cs = PatchState.failed e := by
  induction cs with
  | nil => rfl
  | cons c cs ih => rw [patchRun_cons, patchStep_failed, ih]

theorem patchRun_done (P : Params) (verify : Bool) (basis checksum : List Byte)
    (out : List Byte) (cs : List Command) :
    patchRun P verify basis checksum (PatchState.done out) cs = PatchState.done out := by
  induction cs with
  | nil => rfl
  | cons c cs ih => rw [patchRun_cons, patchStep_done, ih]

theorem patchStep_copy_ok (P : Params) (verify : Bool) (basis checksum out : List Byte)
    (o l : Nat) (h : o + l ≤ basis.length) :
    patchStep P verify basis checksum (PatchState.running out) (Command.Copy o l)
      = PatchState.running (out ++ read_at basis o l) := by
  simp [patchStep, Nat.not_lt.mpr h]

theorem patchStep_copy_out_of_range (P : Params) (verify : Bool) (basis checksum out : List Byte)
    (o l : Nat) (h : basis.length < o + l) :
    patchStep P verify basis checksum (PatchState.running out) (Command.Copy o l)
      = PatchState.failed Error.OutOfRangeCopy := by
  simp [patchStep, h]

theorem read_at_length (basis : List Byte) (o l : Nat) (h : o + l ≤ basis.length) :
    (read_at basis o l).length = l := by
  simp [read_at]; omega

theorem read_at_getElem? (basis : List Byte) (o l k : Nat) (hk : k < l) :
    (read_at basis o l)[k]? = basis[o + k]? := by
  simp [read_at, List.getElem?_take, hk, List.getElem?_drop]

theorem patchRun_flushLiteral (P : Params) (verify : Bool) (basis checksum out : List Byte)
    (pending : List Byte) :
    patchRun P verify basis checksum (PatchState.running out) (flushLiteral pending)
      = PatchState.running (out ++ pending) := by
  cases pending with
  | nil => simp [flushLiteral, patchRun]
  | cons b bs => simp [flushLiteral, patchRun, patchStep]

/-- C3: when the applier reaches a `Copy` (it is still running after the commands
before it), a range beyond the basis makes the step, the whole replay and `apply_patch`
fail with `OutOfRangeCopy`, and a range within the basis appends exactly the bytes
`[offset, offset + length)` of the basis to the output. -/
theorem copy_range_check (P : Params) (verify : Bool) (basis checksum : List Byte)
    (before after : List Command) (o l : Nat) (out : List Byte)
    (hreach : patchRun P verify basis checksum (PatchState.running []) before
      = PatchState.running out) :
    (basis.length < o + l →
      patchRun P verify basis checksum (PatchState.running []) (before ++ [Command.Copy o l])
          = PatchState.failed Error.OutOfRangeCopy ∧
      apply_patch P verify basis
          { commands := before ++ Command.Copy o l :: after, checksum := checksum }
          = Except.error Error.OutOfRangeCopy) ∧
    (o + l ≤ basis.length →
      patchRun P verify basis checksum (PatchState.running []) (before ++ [Command.Copy o l])
          = PatchState.running (out ++ read_at basis o l) ∧
      (read_at basis o l).length = l ∧
      ∀ k, k < l → (read_at basis o l)[k]? = basis[o + k]?) := by
  constructor
  · intro h
    constructor
    · rw [patchRun_append, hreach, patchRun_cons, patchStep_copy_out_of_range _ _ _ _ _ _ _ h,
        patchRun_nil]
    · unfold apply_patch
      simp only
      rw [patchRun_append, hreach, patchRun_cons, patchStep_copy_out_of_range _ _ _ _ _ _ _ h,
        patchRun_failed]
      rfl
  · intro h
    refine ⟨?_, read_at_length basis o l h, fun k hk => read_at_getElem? basis o l k hk⟩
    rw [patchRun_append, hreach, patchRun_cons, patchStep_copy_ok _ _ _ _ _ _ _ h, patchRun_nil]


/-! ### Blocks, signature and index -/

theorem blocksAux_getElem? (L : Nat) :
    ∀ (fuel : Nat) (data : List Byte) (i : Nat) (blk : List Byte),
      (blocksAux L fuel data)[i]? = some blk →
        blk = (data.drop (i * L)).take L ∧ i * L < data.length := by
  intro fuel
  induction fuel with
  | zero => intro data i blk h; simp [blocksAux] at h
  | succ fuel ih =>
    intro data i blk h
    unfold blocksAux at h
    by_cases hd : data.isEmpty = true
    · simp [hd] at h
    · simp only [hd, Bool.false_eq_true, ↓reduceIte] at h
      have hne : data ≠ [] := by simpa using hd
      have hpos : 0 < data.length := List.length_pos.mpr hne
      cases i with
      | zero =>
        simp only [List.getElem?_cons_zero, Option.some.injEq] at h
        simp [← h, hpos]
      | succ i =>
        simp only [List.getElem?_cons_succ] at h
        obtain ⟨h1, h2⟩ := ih (data.drop L) i blk h
        constructor
        · rw [h1, List.drop_drop]
          congr 2
          ring
        · rw [List.length_drop] at h2
          have : (i + 1) * L = i * L + L := by ring
          omega

theorem blocks_getElem? (L : Nat) (data : List Byte) (i : Nat) (blk : List Byte)
    (h : (blocks L data)[i]? = some blk) :
    blk = (data.drop (i * L)).take L ∧ i * L < data.length :=
  blocksAux_getElem? L data.length data i blk h

theorem candidatesFrom_mem (weak : Nat) :
    ∀ (sums : List (Nat × List Byte)) (i : Nat) (c : Candidate),
      c ∈ candidatesFrom weak i sums →
        ∃ j, sums[j]? = some (weak, c.strong_sum) ∧ c.block_index = i + j := by
  intro sums
  induction sums with
  | nil => intro i c h; simp [candidatesFrom] at h
  | cons p rest ih =>
    intro i c h
    obtain ⟨w, s⟩ := p
    unfold candidatesFrom at h
    by_cases hw : w = weak
    · simp only [hw, ↓reduceIte, List.mem_cons] at h
      rcases h with h | h
      · refine ⟨0, ?_, ?_⟩
        · simp [h, hw]
        · simp [h]
      · obtain ⟨j, hj1, hj2⟩ := ih (i + 1) c h
        exact ⟨j + 1, by simpa using hj1, by omega⟩
    · simp only [hw, ↓reduceIte] at h
      obtain ⟨j, hj1, hj2⟩ := ih (i + 1) c h
      exact ⟨j + 1, by simpa using hj1, by omega⟩

theorem findMatch_some (P : Params) (idx : SignatureIndex) (weak : Nat) (window : List Byte)
    (k : Nat) (h : findMatch P idx weak window = some k) :
    ∃ c ∈ idx.table weak, c.block_index = k ∧
      c.strong_sum = strongSum P idx.strong_len window := by
  unfold findMatch candidates at h
  split at h
  · simp at h
  · rw [Option.map_eq_some'] at h
    obtain ⟨c, hc, hk⟩ := h
    refine ⟨c, List.mem_of_find?_eq_some hc, hk, ?_⟩
    have := List.find?_some hc
    simpa using this


/-! ### Coalescing keeps the replay -/

theorem read_at_add (basis : List Byte) (o l1 l2 : Nat) :
    read_at basis o (l1 + l2) = read_at basis o l1 ++ read_at basis (o + l1) l2 := by
  simp only [read_at]
  rw [List.take_add, List.drop_drop]

theorem patchStep_copy_copy (P : Params) (verify : Bool) (basis checksum : List Byte)
    (s : PatchState) (o l1 l2 : Nat) :
    patchStep P verify basis checksum
        (patchStep P verify basis checksum s (Command.Copy o l1)) (Command.Copy (o + l1) l2)
      = patchStep P verify basis checksum s (Command.Copy o (l1 + l2)) := by
  cases s with
  | done out => rfl
  | failed e => rfl
  | running out =>
    by_cases h1 : basis.length < o + l1
    · have h2 : basis.length < o + (l1 + l2) := by omega
      rw [patchStep_copy_out_of_range _ _ _ _ _ _ _ h1,
        patchStep_copy_out_of_range _ _ _ _ _ _ _ h2, patchStep_failed]
    · rw [patchStep_copy_ok _ _ _ _ _ _ _ (Nat.not_lt.mp h1)]
      by_cases h2 : basis.length < o + l1 + l2
      · rw [patchStep_copy_out_of_range _ _ _ _ _ _ _ h2,
          patchStep_copy_out_of_range _ _ _ _ _ _ _ (by omega)]
      · rw [patchStep_copy_ok _ _ _ _ _ _ _ (Nat.not_lt.mp h2),
          patchStep_copy_ok _ _ _ _ _ _ _ (by omega), read_at_add, List.append_assoc]

theorem patchRun_coalesceFrom (P : Params) (verify : Bool) (basis checksum : List Byte) :
    ∀ (cmds : List Command) (held : Option (Nat × Nat)) (s : PatchState),
      patchRun P verify basis checksum s (coalesceFrom held cmds)
        = patchRun P verify basis checksum s (flushCopy held ++ cmds) := by
  intro cmds
  induction cmds with
  | nil => intro held s; cases held <;> simp [coalesceFrom]
  | cons c rest ih =>
    intro held s
    cases c with
    | Copy o l =>
      cases held with
      | none =>
        rw [coalesceFrom, ih]
        rfl
      | some p =>
        obtain ⟨o1, l1⟩ := p
        rw [coalesceFrom]
        by_cases h : o = o1 + l1
        · subst h
          rw [if_pos rfl, ih]
          simp only [flushCopy, List.singleton_append, patchRun_cons, patchStep_copy_copy]
        · rw [if_neg h, patchRun_cons, ih]
          rfl
    | Literal bytes =>
      cases held with
      | none =>
        rw [coalesceFrom, patchRun_append, patchRun_append, patchRun_cons, patchRun_cons, ih]
        rfl
        all_goals (intros; contradiction)
      | some p =>
        rw [coalesceFrom, patchRun_append, patchRun_append, patchRun_cons, patchRun_cons, ih]
        rfl
        all_goals (intros; contradiction)
    | EndToken =>
      cases held with
      | none =>
        rw [coalesceFrom, patchRun_append, patchRun_append, patchRun_cons, patchRun_cons, ih]
        rfl
        all_goals (intros; contradiction)
      | some p =>
        rw [coalesceFrom, patchRun_append, patchRun_append, patchRun_cons, patchRun_cons, ih]
        rfl
        all_goals (intros; contradiction)

theorem patchRun_coalesce (P : Params) (verify : Bool) (basis checksum : List Byte)
    (cmds : List Command) (s : PatchState) :
    patchRun P verify basis checksum s (coalesceFrom none cmds)
      = patchRun P verify basis checksum s cmds :=
  patchRun_coalesceFrom P verify basis checksum cmds none s


/-! ### The encoder loop -/

theorem MatchesSound.drop {P : Params} {idx : SignatureIndex} {basis rest : List Byte}
    (h : MatchesSound P idx basis rest) (n : Nat) (hn : n ≤ rest.length) :
    MatchesSound P idx basis (rest.drop n) := by
  intro j hj k hk
  rw [List.drop_drop] at hk ⊢
  rw [List.length_drop] at hj
  exact h (n + j) (by omega) k hk

theorem MatchesSound.tail {P : Params} {idx : SignatureIndex} {basis : List Byte} {b : Byte}
    {rest : List Byte} (h : MatchesSound P idx basis (b :: rest)) :
    MatchesSound P idx basis rest := by
  have := h.drop 1 (by simp)
  simpa using this

theorem slide_eq_init (P : Params) (L : Nat) (hL : 0 < L) (b : Byte) (rest : List Byte)
    (hlen : L ≤ rest.length) :
    slide P L (RollSum.init P.charOffset ((b :: rest).take L)) b rest
      = RollSum.init P.charOffset (rest.take L) := by
  obtain ⟨n, rfl⟩ : ∃ n, L = n + 1 := ⟨L - 1, by omega⟩
  have hn : n < rest.length := by omega
  unfold slide
  simp only [Nat.add_sub_cancel, List.get?_eq_getElem?, List.getElem?_eq_getElem hn,
    List.take_succ_cons]
  rw [roll_init_cons, List.take_succ, List.getElem?_eq_getElem hn]
  rfl

theorem deltaLoop_zero (P : Params) (idx : SignatureIndex) (sum : RollSum)
    (pending rest : List Byte) : deltaLoop P idx 0 sum pending rest = [] := rfl

theorem deltaLoop_succ (P : Params) (idx : SignatureIndex) (fuel : Nat) (sum : RollSum)
    (pending rest : List Byte) :
    deltaLoop P idx (fuel + 1) sum pending rest =
      if rest.length < idx.block_len then flushLiteral (pending ++ rest)
      else
        match findMatch P idx sum.value (rest.take idx.block_len) with
        | some i =>
            flushLiteral pending ++
              Command.Copy (i * idx.block_len) idx.block_len ::
                deltaLoop P idx fuel
                  (RollSum.init P.charOffset ((rest.drop idx.block_len).take idx.block_len))
                  [] (rest.drop idx.block_len)
        | none =>
            match rest with
            | [] => flushLiteral pending
            | b :: rest1 =>
                deltaLoop P idx fuel (slide P idx.block_len sum b rest1) (pending ++ [b]) rest1 :=
  rfl

theorem deltaLoop_replay (P : Params) (verify : Bool) (idx : SignatureIndex)
    (basis checksum : List Byte) (hL : 0 < idx.block_len) :
    ∀ (fuel : Nat) (sum : RollSum) (pending rest out : List Byte),
      rest.length < fuel →
      MatchesSound P idx basis rest →
      (idx.block_len ≤ rest.length →
        sum = RollSum.init P.charOffset (rest.take idx.block_len)) →
      patchRun P verify basis checksum (PatchState.running out)
          (deltaLoop P idx fuel sum pending rest)
        = PatchState.running (out ++ (pending ++ rest)) := by
  intro fuel
  induction fuel with
  | zero => intro sum pending rest out h; omega
  | succ fuel ih =>
    intro sum pending rest out hfuel hM hsum
    rw [deltaLoop_succ]
    by_cases hshort : rest.length < idx.block_len
    · rw [if_pos hshort, patchRun_flushLiteral]
    · rw [if_neg hshort]
      have hlen : idx.block_len ≤ rest.length := Nat.not_lt.mp hshort
      have hs := hsum hlen
      have hv : sum.value = weakSum P (rest.take idx.block_len) := by rw [hs]; rfl
      cases hf : findMatch P idx sum.value (rest.take idx.block_len) with
      | some k =>
        simp only
        have := hM 0 (by simpa using hlen) k (by simpa [hv] using hf)
        obtain ⟨hr, hb⟩ := this
        rw [patchRun_append, patchRun_flushLiteral, patchRun_cons,
          patchStep_copy_ok _ _ _ _ _ _ _ hr, hb,
          ih _ [] (rest.drop idx.block_len) _ (by rw [List.length_drop]; omega)
            (hM.drop _ hlen) (fun _ => rfl)]
        simp
      | none =>
        simp only
        cases rest with
        | nil => simp at hlen; omega
        | cons b rest1 =>
          simp only
          rw [ih _ (pending ++ [b]) rest1 out (by simpa using hfuel) hM.tail]
          · simp
          · intro h1
            rw [hs]
            exact slide_eq_init P idx.block_len hL b rest1 h1


/-! ### The round trip -/

theorem strongSum_length (P : Params) (S : Nat) (hS : S ≤ P.digestLen) (blk : List Byte) :
    (strongSum P S blk).length = S := by
  simp [strongSum, P.strongHash_length, hS]

theorem roundTrip_eq (P : Params) (cfg : Config) (verify : Bool) (basis target : List Byte)
    (hL : 0 < cfg.block_len) (hS : cfg.strong_len ≤ P.digestLen) :
    roundTrip P cfg verify basis target
      = apply_patch P verify basis (compute_delta P (builtIndex P cfg basis) target) := by
  have hb : build_signature P cfg basis = Except.ok
      { magic := P.sigMagic, block_len := cfg.block_len, strong_len := cfg.strong_len,
        sums := (blocks cfg.block_len basis).map
          (fun blk => (weakSum P blk, strongSum P cfg.strong_len blk)) } := by
    unfold build_signature
    rw [if_neg]
    intro h
    rcases h with h | h <;> omega
  have hl : load_signature P
      { magic := P.sigMagic, block_len := cfg.block_len, strong_len := cfg.strong_len,
        sums := (blocks cfg.block_len basis).map
          (fun blk => (weakSum P blk, strongSum P cfg.strong_len blk)) }
      = Except.ok (builtIndex P cfg basis) := by
    unfold load_signature
    simp only [ne_eq, not_true_eq_false, ↓reduceIte]
    rw [if_neg (by omega), if_neg]
    · rfl
    · simp [strongSum_length P cfg.strong_len hS]
  unfold roundTrip
  rw [hb]
  simp only
  rw [hl]

theorem builtIndex_matchesSound (P : Params) (cfg : Config) (basis target : List Byte)
    (hnc : NoCollision P cfg basis target) :
    MatchesSound P (builtIndex P cfg basis) basis target := by
  intro j hj k hk
  obtain ⟨c, hc, hck, hcs⟩ := findMatch_some _ _ _ _ _ hk
  obtain ⟨i, hi, hci⟩ := candidatesFrom_mem _ _ _ _ hc
  rw [List.getElem?_map, Option.map_eq_some'] at hi
  obtain ⟨blk, hblk, hfp⟩ := hi
  simp only [Prod.mk.injEq] at hfp
  have hik : i = k := by omega
  subst hik
  have hmem : blk ∈ blocks cfg.block_len basis := List.getElem?_mem hblk
  have hw : (target.drop j).take cfg.block_len = blk := by
    apply hnc j hj blk hmem
    simp only [fingerprint, Prod.mk.injEq]
    exact ⟨hfp.1.symm, by rw [hfp.2, hcs]; rfl⟩
  obtain ⟨hb1, hb2⟩ := blocks_getElem? _ _ _ _ hblk
  have hlen : blk.length = cfg.block_len := by
    rw [← hw, List.length_take, List.length_drop]
    have : j + cfg.block_len ≤ target.length := hj
    omega
  have hrange : i * cfg.block_len + cfg.block_len ≤ basis.length := by
    have h := hlen
    rw [hb1, List.length_take, List.length_drop] at h
    show i * cfg.block_len + cfg.block_len ≤ basis.length
    omega
  refine ⟨hrange, ?_⟩
  show read_at basis (i * cfg.block_len) cfg.block_len = (target.drop j).take cfg.block_len
  rw [hw, hb1]
  rfl

/-- C1, amended: when no `block_len`-byte window of the target has the weak sum and the
truncated strong hash of a basis block with different bytes, and the configuration is
valid, the round trip returns exactly the target, with or without the final checksum
verification. -/
theorem round_trip_without_collision (P : Params) (cfg : Config) (verify : Bool) (basis target : List Byte)
    (hL : 0 < cfg.block_len) (hS : cfg.strong_len ≤ P.digestLen)
    (hnc : NoCollision P cfg basis target) :
    roundTrip P cfg verify basis target = Except.ok target := by
  rw [roundTrip_eq P cfg verify basis target hL hS]
  unfold apply_patch compute_delta
  simp only
  rw [patchRun_append, patchRun_coalesce,
    deltaLoop_replay P verify (builtIndex P cfg basis) basis (P.strongHash target) hL
      (target.length + 1) _ [] target [] (Nat.lt_succ_self _)
      (builtIndex_matchesSound P cfg basis target hnc) (fun _ => rfl)]
  simp [patchRun, patchStep, patchResult]


/-- C2: for a window of at least one byte and any byte `b`, `init` on the window followed
by `roll(w[0], b)` gives the state, and so the 32-bit value `(s2 << 16) | s1` with both
halves below `2 ^ 16`, that `init` gives on the slid window `w[1..] ++ [b]`. -/
theorem roll_eq_init_slid (off : Nat) (w : List Byte) (b : Byte) (h : 1 ≤ w.length) :
    (RollSum.init off w).roll off (w.head (List.ne_nil_of_length_pos h)) b
        = RollSum.init off (w.tail ++ [b]) ∧
    ((RollSum.init off w).roll off (w.head (List.ne_nil_of_length_pos h)) b).value
        = (RollSum.init off (w.tail ++ [b])).value ∧
    (RollSum.init off (w.tail ++ [b])).value
        = (RollSum.init off (w.tail ++ [b])).s2 * 2 ^ 16 + (RollSum.init off (w.tail ++ [b])).s1 ∧
    (RollSum.init off (w.tail ++ [b])).s1 < 2 ^ 16 ∧
    (RollSum.init off (w.tail ++ [b])).s2 < 2 ^ 16 ∧
    (RollSum.init off (w.tail ++ [b])).value < 2 ^ 32 := by
  cases w with
  | nil => simp at h
  | cons a rest =>
    have h1 := init_s1_lt off (rest ++ [b])
    have h2 := init_s2_lt off (rest ++ [b])
    have hv := value_eq _ h1
    simp only [List.head_cons, List.tail_cons]
    refine ⟨roll_init_cons off a rest b, by rw [roll_init_cons], ?_, ?_, ?_, ?_⟩
    · rw [hv]; norm_num
    · simpa using h1
    · simpa using h2
    · rw [hv]; omega

/-- Witness of C2 on the window `[1, 2, 3]` slid by the byte `4`. -/
theorem roll_eq_init_slid_witness :
    ((RollSum.init 31 [1, 2, 3]).roll 31 1 4).value = (RollSum.init 31 [2, 3, 4]).value :=
  (roll_eq_init_slid 31 [1, 2, 3] 4 (by decide)).2.1

/-- Witness of C3: after `Literal [9]` on the basis `[1, 2, 3]` the applier is running
with output `[9]`. -/
theorem copy_range_check_witness :
    apply_patch sampleParams true [1, 2, 3]
        { commands := [Command.Literal [9]] ++ Command.Copy 1 5 :: [Command.EndToken],
          checksum := [] }
      = Except.error Error.OutOfRangeCopy :=
  ((copy_range_check sampleParams true [1, 2, 3] [] [Command.Literal [9]] [Command.EndToken]
      1 5 [9] rfl).1 (by decide)).2

theorem weakSum_lt (P : Params) (blk : List Byte) : weakSum P blk < 2 ^ 32 := by
  unfold weakSum
  have h1 := init_s1_lt P.charOffset blk
  have h2 := init_s2_lt P.charOffset blk
  rw [value_eq _ h1]
  omega

theorem blocks_single (L : Nat) (hL : 0 < L) (B : List Byte) (hB : B.length = L) :
    blocks L B = [B] := by
  obtain ⟨n, rfl⟩ : ∃ n, L = n + 1 := ⟨L - 1, by omega⟩
  have hne : B ≠ [] := by
    intro h; rw [h] at hB; simp at hB
  unfold blocks
  rw [hB, blocksAux]
  have h1 : B.isEmpty = false := by simpa using hne
  rw [h1]
  simp only [Bool.false_eq_true, ↓reduceIte]
  rw [List.take_of_length_le (by omega), List.drop_of_length_le (by omega)]
  cases n <;> simp [blocksAux]

/-- Two one-block sequences with the same weak sum and the same strong hash: the delta
of one against the other is a single `Copy` and the patch returns the basis. -/
theorem roundTrip_single_block (P : Params) (cfg : Config) (verify : Bool)
    (B T : List Byte) (hL : 0 < cfg.block_len) (hS : cfg.strong_len ≤ P.digestLen)
    (hB : B.length = cfg.block_len) (hT : T.length = cfg.block_len)
    (hw : weakSum P B = weakSum P T) (hh : P.strongHash B = P.strongHash T) :
    roundTrip P cfg verify B T = Except.ok B := by
  rw [roundTrip_eq P cfg verify B T hL hS]
  have htake : T.take cfg.block_len = T := List.take_of_length_le (by omega)
  have hdrop : T.drop cfg.block_len = [] := List.drop_of_length_le (by omega)
  have hfind : findMatch P (builtIndex P cfg B) (RollSum.init P.charOffset T).value T = some 0 := by
    have hv : (RollSum.init P.charOffset T).value = weakSum P B := hw.symm
    rw [hv]
    simp [findMatch, candidates, builtIndex, blocks_single _ hL B hB, candidatesFrom, strongSum, hh]
  have hloop : deltaLoop P (builtIndex P cfg B) (T.length + 1)
      (RollSum.init P.charOffset (T.take (builtIndex P cfg B).block_len)) [] T
      = [Command.Copy 0 cfg.block_len] := by
    rw [deltaLoop_succ]
    have hbl : (builtIndex P cfg B).block_len = cfg.block_len := rfl
    rw [hbl, if_neg (by omega), htake, hfind]
    simp only [hdrop]
    obtain ⟨n, hn⟩ : ∃ n, T.length = n + 1 := ⟨T.length - 1, by omega⟩
    rw [hn, deltaLoop_succ, hbl, if_pos (by simpa using hL)]
    simp [flushLiteral]
  unfold apply_patch compute_delta
  simp only
  rw [patchRun_append, patchRun_coalesce, hloop]
  simp only [patchRun_cons, patchRun_nil]
  rw [patchStep_copy_ok _ _ _ _ _ _ _ (by omega)]
  have hread : read_at B 0 cfg.block_len = B := by
    simp [read_at, List.take_of_length_le (Nat.le_of_eq hB)]
  simp [patchRun, patchStep, patchResult, hread, hh]

/-- Whatever the strong hash and the constants, two different blocks of
`digestLen + 5` bytes share the weak sum and the strong hash. -/
theorem exists_collision (P : Params) :
    ∃ B T : List Byte, B ≠ T ∧ B.length = P.digestLen + 5 ∧ T.length = P.digestLen + 5 ∧
      weakSum P B = weakSum P T ∧ P.strongHash B = P.strongHash T := by
  let f : Mathlib.Vector Byte (P.digestLen + 5) → Fin (2 ^ 32) × Mathlib.Vector Byte P.digestLen :=
    fun v => (⟨weakSum P v.1, weakSum_lt P v.1⟩, ⟨P.strongHash v.1, P.strongHash_length v.1⟩)
  have hcard : Fintype.card (Fin (2 ^ 32) × Mathlib.Vector Byte P.digestLen)
      < Fintype.card (Mathlib.Vector Byte (P.digestLen + 5)) := by
    rw [Fintype.card_prod, card_vector, card_vector, Fintype.card_fin, Fintype.card_fin]
    have : (256 : Nat) ^ (P.digestLen + 5) = 256 ^ 5 * 256 ^ P.digestLen := by ring
    rw [this]
    apply Nat.mul_lt_mul_of_lt_of_le (by norm_num) (le_refl _) (by positivity)
  obtain ⟨v1, v2, hne, heq⟩ := Fintype.exists_ne_map_eq_of_card_lt f hcard
  refine ⟨v1.1, v2.1, fun h => hne (Subtype.ext h), v1.2, v2.2, ?_, ?_⟩
  · have := congrArg (fun p => p.1.val) heq
    exact this
  · have := congrArg (fun p => p.2.1) heq
    exact this

/-- C1, as stated, fails: for no choice of the strong hash and of the constants does the
round trip return the target for every basis, every target and every valid
configuration. -/
theorem round_trip_fails_on_collision :
    ¬ ∃ P : Params, ∀ (cfg : Config) (verify : Bool) (B T : List Byte),
        0 < cfg.block_len → cfg.strong_len ≤ P.digestLen →
          roundTrip P cfg verify B T = Except.ok T := by
  rintro ⟨P, h⟩
  obtain ⟨B, T, hne, hB, hT, hw, hh⟩ := exists_collision P
  have h1 := h { block_len := P.digestLen + 5, strong_len := P.digestLen } true B T
    (by simp) (le_refl _)
  have h2 := roundTrip_single_block P { block_len := P.digestLen + 5, strong_len := P.digestLen }
    true B T (by simp) (le_refl _) hB hT hw hh
  rw [h2] at h1
  exact hne (by simpa using h1)

theorem sample_noCollision :
    NoCollision sampleParams { block_len := 2, strong_len := 2 } [1, 2, 3, 4] [3, 4, 9, 1, 2] := by
  intro i hi blk hblk hfp
  have hb : blocks 2 ([1, 2, 3, 4] : List Byte) = [[1, 2], [3, 4]] := by decide
  simp only [hb, List.mem_cons, List.mem_singleton, List.mem_nil_iff, or_false] at hblk
  simp only [List.length_cons, List.length_nil] at hi
  have hi3 : i ≤ 3 := by omega
  interval_cases i <;> rcases hblk with rfl | rfl <;> revert hfp <;> decide

/-- Witness of C1 (amended): basis `[1, 2, 3, 4]`, target `[3, 4, 9, 1, 2]`, blocks of two
bytes. -/
theorem round_trip_without_collision_witness :
    roundTrip sampleParams { block_len := 2, strong_len := 2 } true [1, 2, 3, 4] [3, 4, 9, 1, 2]
      = Except.ok [3, 4, 9, 1, 2] :=
  round_trip_without_collision sampleParams { block_len := 2, strong_len := 2 } true [1, 2, 3, 4] [3, 4, 9, 1, 2]
    (by decide) (by decide) sample_noCollision

end Rsync
